import Mathlib

/-!
Verification development for the HaloPSA Workflows MCP compatibility layer.

The definitions below are a shallow embedding of the JavaScript/TypeScript
sources of the repository:
* `src/src/mcp-compatibility.js` (protocol negotiation, schema conversion,
  context normalization, result normalization), and
* the utility module (`ConnectionStateManager`, `TimerManager`, `withRetry`).

JavaScript runtime values are modelled by the inductive type `JsValue`;
machine-level details that no considered property depends on (floating point
number formatting, property enumeration order beyond insertion order) are
modelled at the granularity the source observes them.
-/

namespace HaloPSA

/-- Model of a JavaScript runtime value as observed by the compatibility
layer: `null`, `undefined`, booleans, numbers (modelled as integers),
bigints (whose JSON serialization throws), strings, `Error` instances
(carrying a message and an optional stack), arrays, and plain objects
(insertion-ordered association lists with distinct keys). -/
inductive JsValue where
  | null
  | undef
  | bool (b : Bool)
  | num (n : Int)
  | bigint (n : Int)
  | str (s : String)
  | err (message : String) (stack : Option String)
  | arr (elems : List JsValue)
  | obj (fields : List (String × JsValue))
  deriving Repr

/-- JavaScript truthiness: `undefined`, `null`, `false`, `0`, `0n` and the
empty string are falsy; every object (including arrays and `Error`s) is
truthy. -/
def jsTruthy : JsValue → Bool
  | .null => false
  | .undef => false
  | .bool b => b
  | .num n => n != 0
  | .bigint n => n != 0
  | .str s => s ≠ ""
  | .err _ _ => true
  | .arr _ => true
  | .obj _ => true

/-- Truthiness of an optional field (`none` models an absent field, i.e.
`undefined` property access). -/
def jsTruthyO : Option JsValue → Bool
  | none => false
  | some v => jsTruthy v

/-- Property lookup on a modelled object: first binding for the key
(object keys are assumed distinct, as they are for JS object literals). -/
def jsGet (fields : List (String × JsValue)) (k : String) : Option JsValue :=
  (fields.find? (fun p => p.1 = k)).map (fun p => p.2)

/-- Evaluation of `a || b` on an optional field: the field itself when truthy, otherwise
the default. -/
def jsOr (o : Option JsValue) (d : JsValue) : JsValue :=
  match o with
  | some v => if jsTruthy v then v else d
  | none => d

/-- Escape a string for inclusion in a JSON document (backslash and quote;
control-character escapes are not needed by any considered property). -/
def escapeJson (s : String) : String :=
  (s.toList.map (fun c =>
    if c = '\\' then "\\\\" else if c = '"' then "\\\"" else String.singleton c)).foldl
    (fun acc piece => acc ++ piece) ""

/-- Quote a string as a JSON string literal. -/
def quoteJson (s : String) : String := "\"" ++ escapeJson s ++ "\""

/-- Stringification of values for `String(result)` (reachable only for
primitives in the normalizer). -/
def jsToString : JsValue → String
  | .null => "null"
  | .undef => "undefined"
  | .bool b => if b then "true" else "false"
  | .num n => toString n
  | .bigint n => toString n
  | .str s => s
  | .err m _ => "Error: " ++ m
  | .arr _ => "[array]"
  | .obj _ => "[object Object]"

mutual

/-- Model of `JSON.stringify` as used by the compatibility layer.
`none` models the serialization throwing (a `BigInt` value is reached —
`JSON.stringify` raises `TypeError` on bigints).  `undefined` never occurs
as the top-level argument at any call site of the normalizer (each call
site guards against it), so the top-level `undef` case is also mapped to
`none`.  Inside containers JS semantics are followed: an `undefined`
object field is omitted, an `undefined` array element serializes as
`null`, and an `Error` serializes as `{}` (its properties are
non-enumerable).  Whitespace of the `(value, null, 2)` pretty-printing is
not reproduced; every theorem relates the normalizer to this function
itself, so only success/failure and injectivity of the rendering matter. -/
def jsonStr : JsValue → Option String
  | .null => some "null"
  | .undef => none
  | .bool b => some (if b then "true" else "false")
  | .num n => some (toString n)
  | .bigint _ => none
  | .str s => some (quoteJson s)
  | .err _ _ => some "{}"
  | .arr es =>
    match jsonStrArr es with
    | some ss => some ("[" ++ String.intercalate "," ss ++ "]")
    | none => none
  | .obj fs =>
    match jsonStrFields fs with
    | some ss => some ("\x7b" ++ String.intercalate "," ss ++ "\x7d")
    | none => none

/-- Serialize the elements of an array (an `undefined` element renders as
`null`). -/
def jsonStrArr : List JsValue → Option (List String)
  | [] => some []
  | .undef :: vs =>
    match jsonStrArr vs with
    | some ss => some ("null" :: ss)
    | none => none
  | v :: vs =>
    match jsonStr v, jsonStrArr vs with
    | some s, some ss => some (s :: ss)
    | _, _ => none

/-- Serialize the fields of an object (an `undefined` field is omitted). -/
def jsonStrFields : List (String × JsValue) → Option (List String)
  | [] => some []
  | (_, .undef) :: fs => jsonStrFields fs
  | (k, v) :: fs =>
    match jsonStr v, jsonStrFields fs with
    | some s, some ss => some ((quoteJson k ++ ":" ++ s) :: ss)
    | _, _ => none

end

/-! ## Result normalizer (`normalizeResult`, `src/src/mcp-compatibility.js`) -/

/-- The single text content item `{ type: 'text', text: s }`. -/
def textItem (s : String) : JsValue :=
  .obj [("type", .str "text"), ("text", .str s)]

/-- The item produced by the normalizer's outer `catch` when an internal
operation (a `JSON.stringify` call) throws. -/
def catchItem : JsValue :=
  textItem "Error occurred while processing the result"

/-- Serialize a value and wrap it in a text item; a throwing serialization
lands in the function's outer `catch`, which yields `catchItem`. -/
def serToItem (v : JsValue) : JsValue :=
  match jsonStr v with
  | some s => textItem s
  | none => catchItem

/-- The check applied to each element of a `content` array
(`item && typeof item === 'object' && item.type && (item.type === 'text'
|| item.type === 'image')`).  Only a plain object with a `type` property
equal to `'text'` or `'image'` passes. -/
def isTaggedItem : JsValue → Bool
  | .obj fs =>
    match jsGet fs "type" with
    | some (.str "text") => true
    | some (.str "image") => true
    | _ => false
  | _ => false

/-- The value the error branch serializes:
`{ error: message, details: dev ? stack : null }` (in development posture
an absent stack is an omitted key). -/
def errPayload (dev : Bool) (message : String) (stack : Option String) : JsValue :=
  .obj [("error", .str message),
        ("details", if dev then (match stack with
                                 | some st => .str st
                                 | none => .undef)
                    else .null)]

/-- Shallow embedding of `normalizeResult` (lines 761–854 of
`src/src/mcp-compatibility.js`).  `dev` models
`process.env.NODE_ENV === 'development'`.  The function's outer
`try`/`catch` is folded into `serToItem`: the only operations in the body
that can throw are the `JSON.stringify` calls. -/
def normalizeResult (dev : Bool) (result : JsValue) : JsValue :=
  match result with
  | .null => textItem "Operation completed successfully with no result"
  | .undef => textItem "Operation completed successfully with no result"
  | .str s => textItem s
  | .err message stack => serToItem (errPayload dev message stack)
  | .obj fs =>
    if isTaggedItem (.obj fs) then .obj fs
    else
      match jsGet fs "content" with
      | some (.arr items) =>
        if items.all isTaggedItem then .obj fs
        else
          match jsonStr (.arr items) with
          | some s => .obj [("content", .arr [textItem s])]
          | none => catchItem
      | _ =>
        match jsGet fs "value" with
        | some .undef => serToItem (.obj fs)
        | some (.str s) => textItem s
        | some v => serToItem v
        | none => serToItem (.obj fs)
  | .arr es => serToItem (.arr es)
  | .bool b => textItem (jsToString (.bool b))
  | .num n => textItem (jsToString (.num n))
  | .bigint n => textItem (jsToString (.bigint n))

/-- The canonical envelope shape: a single tagged text/media item, or an
object whose `content` field is an array of tagged items. -/
def isEnvelope (v : JsValue) : Bool :=
  isTaggedItem v ||
    (match v with
     | .obj fs =>
       match jsGet fs "content" with
       | some (.arr items) => items.all isTaggedItem
       | _ => false
     | _ => false)

/-! ## Protocol negotiator (`enhanceProtocolCapabilities`,
`src/src/mcp-compatibility.js` lines 64–143) -/

/-- The handshake request parameters: the named fields the patched
`_handleInitialize` inspects, plus the remaining client-provided fields
(carried verbatim by the `{ ...request.params }` spread). -/
structure Params where
  clientInfo : Option JsValue
  protocolVersion : Option JsValue
  capabilities : Option JsValue
  extra : List (String × JsValue)

/-- The server configuration fields read by the negotiator
(`config.models`, `config.name`, `config.version`). -/
structure Config where
  models : Option JsValue
  name : Option JsValue
  version : Option JsValue

/-- The constant `PROTOCOL_VERSIONS.DEFAULT`. -/
def defaultProtocolVersion : JsValue := .str "1.0"

/-- The constant `PROTOCOL_VERSIONS.LATEST`. -/
def latestProtocolVersion : JsValue := .str "2024-11-05"

/-- The default capability set substituted for a missing `capabilities`
field: `{ models: config.models || [], tools: {} }`. -/
def defaultCapabilities (cfg : Config) : JsValue :=
  .obj [("models", jsOr cfg.models (.arr [])), ("tools", .obj [])]

/-- The repaired request (`safeRequest`, lines 76–96): substitute the
default protocol version when `protocolVersion` is falsy and the default
capability set when `capabilities` is falsy; every other field is carried
unchanged by the spread. -/
def fixParams (cfg : Config) (p : Params) : Params :=
  { p with
    protocolVersion :=
      if jsTruthyO p.protocolVersion then p.protocolVersion
      else some defaultProtocolVersion,
    capabilities :=
      if jsTruthyO p.capabilities then p.capabilities
      else some (defaultCapabilities cfg) }

/-- The minimal request (lines 108–115): only the client identity survives
(defaulted to `{name:'UnknownClient', version:'1.0.0'}` when falsy); all
other params fields are replaced by hardcoded defaults. -/
def minimalParams (p : Params) : Params :=
  { clientInfo :=
      some (jsOr p.clientInfo
        (.obj [("name", .str "UnknownClient"), ("version", .str "1.0.0")])),
    protocolVersion := some defaultProtocolVersion,
    capabilities := some (.obj [("models", .arr []), ("tools", .obj [])]),
    extra := [] }

/-- The synthesized initialize response returned when even the minimal
request is rejected (lines 123–133). -/
def synthResponse (cfg : Config) : JsValue :=
  .obj [("protocolVersion", latestProtocolVersion),
        ("capabilities", .obj [("tools", .obj []), ("logging", .obj [])]),
        ("serverInfo", .obj [("name", jsOr cfg.name (.str "MCP Server")),
                             ("version", jsOr cfg.version (.str "1.0.0"))])]

/-- An error raised by the underlying initialize handler (only its
`message` is inspected by the negotiator). -/
structure JsError where
  message : String
  deriving Repr, DecidableEq

/-- The fallback guard (line 104):
`error.message && error.message.includes('Required')`. -/
def requiredGuard (msg : String) : Bool :=
  (!msg.isEmpty) && decide (("Required".toList) <:+: msg.toList)

/-- Shallow embedding of the patched `_handleInitialize` (lines 73–138),
parameterized by the underlying handler.  Besides the outcome it returns
the trace of requests actually passed to the underlying handler, in
order, so that "which fallback rungs were attempted" is observable. -/
def handleInitialize (original : Params → Except JsError JsValue)
    (cfg : Config) (p : Params) : Except JsError JsValue × List Params :=
  let fixed := fixParams cfg p
  match original fixed with
  | .ok r => (.ok r, [fixed])
  | .error e =>
    if requiredGuard e.message then
      let minimal := minimalParams p
      match original minimal with
      | .ok r => (.ok r, [fixed, minimal])
      | .error _ => (.ok (synthResponse cfg), [fixed, minimal])
    else (.error e, [fixed])

/-! ## Connection state manager (`ConnectionStateManager`) -/

/-- The state of a `ConnectionStateManager`: the connected flag, the
timestamp of the last successful connection, and the registered
disconnect/reconnect callback lists (callbacks modelled as opaque
identifiers; invoking one is recorded, exceptions it raises are caught by
the manager and change nothing). -/
structure ConnState where
  isConnected : Bool
  lastConnected : Nat
  disconnectCbs : List Nat
  reconnectCbs : List Nat
  deriving Repr, DecidableEq

/-- Embedding of `setConnected` (utility module, lines 52–76): a same-state update does
nothing; a `false → true` edge updates `lastConnected` to `now` and
invokes every reconnect callback in order; a `true → false` edge invokes
every disconnect callback in order.  The second component lists the
callbacks invoked by this call. -/
def setConnected (s : ConnState) (connected : Bool) (now : Nat) :
    ConnState × List Nat :=
  if s.isConnected ≠ connected then
    if connected then
      ({ s with isConnected := true, lastConnected := now }, s.reconnectCbs)
    else
      ({ s with isConnected := false }, s.disconnectCbs)
  else (s, [])

/-! ## Retry with backoff (`withRetry`) -/

/-- A member of the `retryableErrors` allow-list: a string error code or a
numeric HTTP-like status. -/
inductive ErrKey where
  | s (v : String)
  | n (v : Int)
  deriving Repr, DecidableEq

/-- An error raised by the retried operation, as far as `withRetry`
inspects it: an optional `code` and an optional `status` (plus a message
for identity). -/
structure RetryError where
  message : String
  code : Option ErrKey
  status : Option ErrKey
  deriving Repr, DecidableEq

/-- The check `retryableErrors.includes(error.code) ||
retryableErrors.includes(error.status)` — an absent field matches
nothing. -/
def keyMatches (allow : List ErrKey) (e : RetryError) : Bool :=
  (match e.code with | some k => allow.contains k | none => false) ||
  (match e.status with | some k => allow.contains k | none => false)

/-- The loop of `withRetry` (utility module, lines 236–258):
`for (attempt = 0; attempt <= maxRetries; attempt++)`, breaking out of
the loop (and re-raising the last error) when
`!shouldRetry || attempt >= maxRetries`.  `fuel` carries
`maxRetries - attempt`, so `attempt >= maxRetries` is the `fuel = 0`
case.  `fn k` is the outcome of the operation's `(k+1)`-th invocation.
Returns the final outcome, the number of invocations of `fn`, and the
list of backoff delays actually slept.  `nextDelay` abstracts the update
`delay = Math.min(delay * backoffFactor, maxDelay)` (its fractional
arithmetic is irrelevant to every considered property and is kept
opaque). -/
def retryGo (fn : Nat → Except RetryError α) (allow : List ErrKey)
    (nextDelay : Nat → Nat) : (fuel attempt delay : Nat) →
    Except RetryError α × Nat × List Nat
  | fuel, attempt, delay =>
    match fn attempt with
    | .ok a => (.ok a, 1, [])
    | .error e =>
      let shouldRetry := allow.isEmpty || keyMatches allow e
      match fuel with
      | 0 => (.error e, 1, [])
      | f + 1 =>
        if shouldRetry then
          let rest := retryGo fn allow nextDelay f (attempt + 1) (nextDelay delay)
          (rest.1, rest.2.1 + 1, delay :: rest.2.2)
        else (.error e, 1, [])

/-- Embedding of `withRetry` itself: run the loop from attempt 0 with the initial
delay and `maxRetries` permitted retries. -/
def withRetry (fn : Nat → Except RetryError α) (allow : List ErrKey)
    (maxRetries : Nat) (nextDelay : Nat → Nat) (initialDelay : Nat) :
    Except RetryError α × Nat × List Nat :=
  retryGo fn allow nextDelay maxRetries 0 initialDelay

/-! ## Timer registry (`TimerManager`) -/

/-- The state of a `TimerManager` together with the runtime's pending
one-shot timers.  `registry` models the `_timers` map (`Map.set` keeps a
replaced key in place, a fresh key is appended).  `pending` lists the
native timers that have been created and have neither fired nor been
cleared; each carries the native handle and the `timerId` its firing
closure captured.  `nextHandle` generates fresh native handles. -/
structure TMState where
  registry : List (String × Nat)
  pending : List (Nat × String)
  nextHandle : Nat
  deriving Repr, DecidableEq

/-- Embedding of `Map.set`: replace in place when the key is present, append
otherwise. -/
def mapSet (m : List (String × Nat)) (k : String) (v : Nat) : List (String × Nat) :=
  if m.any (fun p => p.1 = k) then
    m.map (fun p => if p.1 = k then (k, v) else p)
  else m ++ [(k, v)]

/-- Embedding of `Map.delete`: remove the binding for the key. -/
def mapDelete (m : List (String × Nat)) (k : String) : List (String × Nat) :=
  m.filter (fun p => p.1 ≠ k)

/-- Embedding of `Map.get`. -/
def mapGet (m : List (String × Nat)) (k : String) : Option Nat :=
  (m.find? (fun p => p.1 = k)).map (fun p => p.2)

/-- Embedding of `TimerManager.setTimeout` (utility module, lines 116–130) with the
identifier `id` (caller-supplied, or the generated
`timer_<now>_<random>`): create a native timer whose closure captures
`id`, then `this._timers.set(id, timer)` — an existing binding for `id`
is overwritten without the earlier native timer being cancelled. -/
def tmSetTimeout (s : TMState) (id : String) : TMState :=
  { registry := mapSet s.registry id s.nextHandle,
    pending := s.pending ++ [(s.nextHandle, id)],
    nextHandle := s.nextHandle + 1 }

/-- A pending one-shot timer with native handle `h` fires: the callback
runs (`cbThrows` tells whether it raised; the exception is caught and
logged) and the `finally` block deletes the captured `timerId` from the
registry in either case.  A handle that is not pending fires nothing. -/
def tmFire (s : TMState) (h : Nat) (_cbThrows : Bool) : TMState :=
  match s.pending.find? (fun p => p.1 = h) with
  | some (_, tid) =>
    { s with pending := s.pending.filter (fun p => p.1 ≠ h),
             registry := mapDelete s.registry tid }
  | none => s

/-- Embedding of `TimerManager.clear` (lines 157–163): look the id up; when found,
cancel the native timer it currently maps to and delete the entry. -/
def tmClear (s : TMState) (id : String) : TMState :=
  match mapGet s.registry id with
  | some h =>
    { s with pending := s.pending.filter (fun p => p.1 ≠ h),
             registry := mapDelete s.registry id }
  | none => s

/-- Embedding of `TimerManager.clearAll` (lines 168–173): cancel every native timer the
registry currently references, then empty the registry. -/
def tmClearAll (s : TMState) : TMState :=
  { s with
    pending := s.pending.filter (fun p => ¬ s.registry.any (fun q => q.2 = p.1)),
    registry := [] }

/-- The empty manager. -/
def tmEmpty : TMState :=
  { registry := [], pending := [], nextHandle := 0 }

/-- Schedule a list of timers in order (ids as supplied). -/
def tmScheduleAll (s : TMState) (ids : List String) : TMState :=
  ids.foldl tmSetTimeout s

/-- Fire a list of pending timers in order (callbacks succeeding). -/
def tmFireAll (s : TMState) (hs : List (Nat × String)) : TMState :=
  hs.foldl (fun t p => tmFire t p.1 false) s

/-! ## Context normalizer (`normalizeContext`) and console streams -/

/-- The two standard process streams. -/
inductive Stream where
  | stdout
  | stderr
  deriving Repr, DecidableEq

/-- The four `console` methods the substituted logger uses. -/
inductive ConsoleMethod where
  | debug
  | info
  | warn
  | error
  deriving Repr, DecidableEq

/-- Stream routing of the Node.js `console` (external runtime semantics,
as documented for Node: `console.debug` and `console.info` are aliases of
`console.log` and write to standard output; `console.warn` and
`console.error` write to standard error). -/
def consoleStream : ConsoleMethod → Stream
  | .debug => .stdout
  | .info => .stdout
  | .warn => .stderr
  | .error => .stderr

/-- One diagnostic write: the stream it targets and the line written. -/
structure LogAction where
  stream : Stream
  text : String
  deriving Repr, DecidableEq

/-- A four-level logger, each level described by the write it performs on
a message. -/
structure Logger where
  debug : String → LogAction
  info : String → LogAction
  warn : String → LogAction
  error : String → LogAction

/-- The logger `normalizeContext` substitutes when `rawContext.log` is
absent (lines 740–745 of `src/src/mcp-compatibility.js`):
`debug: m => console.debug('[DEBUG] ' + m)`, and so on for
info/warn/error. -/
def substitutedLogger : Logger :=
  { debug := fun m => ⟨consoleStream .debug, "[DEBUG] " ++ m⟩,
    info := fun m => ⟨consoleStream .info, "[INFO] " ++ m⟩,
    warn := fun m => ⟨consoleStream .warn, "[WARN] " ++ m⟩,
    error := fun m => ⟨consoleStream .error, "[ERROR] " ++ m⟩ }

/-- A raw invocation context as `normalizeContext` sees it: an optional
logger and an optional progress reporter. -/
structure RawContext where
  log : Option Logger
  reportProgress : Option Unit

/-- A normalized context: both surfaces present. -/
structure NormContext where
  log : Logger
  reportProgress : Unit

/-- Shallow embedding of `normalizeContext` (lines 734–754): substitute
the fallback logger when `log` is absent and a no-op progress reporter
when `reportProgress` is absent; a provided surface is kept. -/
def normalizeContext (ctx : RawContext) : NormContext :=
  { log := ctx.log.getD substitutedLogger,
    reportProgress := ctx.reportProgress.getD () }

/-! ## Schema adapter (`convertToZodSchema`) and Zod parse semantics -/

/-- The unknown-key policy of a Zod object schema: plain `z.object` strips
unknown keys; `.passthrough()` keeps them. -/
inductive ZMode where
  | strip
  | passthrough
  deriving Repr, DecidableEq

/-- The fragment of Zod schemas produced by `convertToZodSchema` that the
considered properties exercise. -/
inductive ZodType where
  | any
  | string
  | number
  | int
  | boolean
  | nullT
  | optional (t : ZodType)
  | object (shape : List (String × ZodType)) (mode : ZMode)
  deriving Repr

/-- Is the schema an `optional(...)` wrapper (an absent object key is
accepted exactly for those)? -/
def isOpt : ZodType → Bool
  | .optional _ => true
  | _ => false

mutual

/-- Parse semantics of the Zod library (v3, the external dependency the
adapter targets), on the fragment above, as documented for Zod: primitive
schemas accept exactly their type; `optional` additionally accepts
`undefined`; an object schema requires a plain object, parses each shape
key (an absent key is accepted only for an optional member, and is then
omitted from the output), and treats unknown keys by mode — a plain
object schema strips them from the (successful) result, a passthrough
schema keeps them.  `none` models a thrown/reported validation error. -/
def zodParse : ZodType → JsValue → Option JsValue
  | .any, v => some v
  | .string, v => match v with | .str s => some (.str s) | _ => none
  | .number, v => match v with | .num n => some (.num n) | _ => none
  | .int, v => match v with | .num n => some (.num n) | _ => none
  | .boolean, v => match v with | .bool b => some (.bool b) | _ => none
  | .nullT, v => match v with | .null => some .null | _ => none
  | .optional t, v =>
    match v with
    | .undef => some .undef
    | _ => zodParse t v
  | .object shape mode, v =>
    match v with
    | .obj fields =>
      match zodParseShape shape fields with
      | some out =>
        some (.obj (match mode with
          | .strip => out
          | .passthrough =>
            out ++ fields.filter (fun p => ¬ (shape.map (fun q => q.1)).contains p.1)))
      | none => none
    | _ => none

/-- Parse the declared members of an object shape against the candidate's
fields, in shape order. -/
def zodParseShape : List (String × ZodType) → List (String × JsValue) →
    Option (List (String × JsValue))
  | [], _ => some []
  | (k, t) :: rest, fields =>
    match jsGet fields k with
    | none =>
      if isOpt t then zodParseShape rest fields else none
    | some v =>
      match zodParse t v with
      | none => none
      | some v' =>
        match zodParseShape rest fields with
        | none => none
        | some out => some ((k, v') :: out)

end

/-- The fragment of JSON-Schema descriptions that the considered
properties exercise (`type: 'object'` with `properties`, `required` and
`additionalProperties`, plus the scalar types). -/
inductive JSchema where
  | objS (properties : List (String × JSchema)) (required : List String)
      (additionalProperties : Bool)
  | strS
  | numS
  | intS
  | boolS
  | nullS
  | anyS
  deriving Repr

mutual

/-- Shallow embedding of `convertToZodSchema`
(`src/src/mcp-compatibility.js` lines 542–688) on the modelled fragment:
an object type converts each property (wrapping it in `.optional()`
unless listed in `required`), builds `z.object(shape)`, and applies
`.passthrough()` exactly when `additionalProperties === true`; scalar
types map to the corresponding Zod scalar schema. -/
def convertToZodSchema : JSchema → ZodType
  | .objS props req ap =>
    .object (convertProps req props) (if ap then .passthrough else .strip)
  | .strS => .string
  | .numS => .number
  | .intS => .int
  | .boolS => .boolean
  | .nullS => .nullT
  | .anyS => .any

/-- Convert the properties of an object schema, marking the ones not
listed in `required` optional (lines 567–584). -/
def convertProps (req : List String) : List (String × JSchema) →
    List (String × ZodType)
  | [] => []
  | (k, s) :: rest =>
    (k, if req.contains k then convertToZodSchema s
        else .optional (convertToZodSchema s)) :: convertProps req rest

end

/-! ## Theorems -/

/-- A single text item is a canonical envelope. -/
theorem envelope_textItem (s : String) : isEnvelope (textItem s) = true := rfl

/-- Serializing any value into a text item (with the catch fallback on a
throwing serialization) yields a canonical envelope. -/
theorem envelope_serToItem (v : JsValue) : isEnvelope (serToItem v) = true := by
  unfold serToItem
  cases jsonStr v with
  | none => exact envelope_textItem _
  | some s => exact envelope_textItem s

/-- C3: the result normalizer is total — for every handler return value
(null, undefined, strings, Errors, tagged items, content arrays, other
objects and primitives, including values whose JSON serialization
throws), `normalizeResult` returns without raising and its result matches
the canonical envelope shape (a single tagged item or a `content` array
of tagged items).  Totality is expressed by `normalizeResult` being a
function on all of `JsValue` whose internal throwing operations
(serialization) are handled by the modelled `catch`. -/
theorem normalizeResult_total_envelope (dev : Bool) (v : JsValue) :
    isEnvelope (normalizeResult dev v) = true := by
  cases v with
  | null => exact envelope_textItem _
  | undef => exact envelope_textItem _
  | str s => exact envelope_textItem s
  | bool b => exact envelope_textItem _
  | num n => exact envelope_textItem _
  | bigint n => exact envelope_textItem _
  | err m st => exact envelope_serToItem _
  | arr es => exact envelope_serToItem _
  | obj fs =>
    simp only [normalizeResult]
    by_cases htag : isTaggedItem (.obj fs) = true
    · simp [htag, isEnvelope]
    · simp only [Bool.not_eq_true] at htag
      simp only [htag, Bool.false_eq_true, if_false]
      split
      · next items hcont =>
        cases hall : items.all isTaggedItem with
        | true =>
          simp [isEnvelope, hcont, hall]
        | false =>
          simp only [hall, Bool.false_eq_true, if_false]
          split
          · exact rfl
          · exact rfl
      · next _ _ =>
        split
        · exact envelope_serToItem _
        · next s _ => exact envelope_textItem s
        · exact envelope_serToItem _
        · exact envelope_serToItem _

/-- Does the value fall under "any other primitive" in the normalizer's
cascade (a boolean, number or bigint — null/undefined and strings are
taken by earlier branches)? -/
def isOtherPrim : JsValue → Bool
  | .bool _ => true
  | .num _ => true
  | .bigint _ => true
  | _ => false

/-- An object carrying a `value` field, as produced by Azure-style
handlers. -/
def valueObjCex : JsValue := .obj [("value", .str "hi")]

/-- C5 counterexample: `{value: "hi"}` is an object that is not null, not
a string, not an Error, not a tagged content item and carries no content
array, yet `normalizeResult` returns the text item `"hi"` (the unwrapped
`value` field) and not a text item carrying the JSON serialization of the
object itself. -/
theorem normalizeResult_value_branch_cex :
    isTaggedItem valueObjCex = false ∧
    (match valueObjCex with
     | .obj fs => jsGet fs "content"
     | _ => none) = none ∧
    normalizeResult false valueObjCex = textItem "hi" ∧
    jsonStr valueObjCex = some "\x7b\"value\":\"hi\"\x7d" ∧
    textItem "hi" ≠ textItem "\x7b\"value\":\"hi\"\x7d" := by
  refine ⟨rfl, rfl, rfl, rfl, ?_⟩
  intro h
  simp [textItem] at h

/-- C5 (amended): for every object that is not null, not a string, not an
Error, not a tagged content item, carries no content array, and — as the
code requires beyond the claim — has no defined `value` field,
`normalizeResult` yields a single text item whose text is the JSON
serialization of the object, provided that serialization succeeds (a
throwing serialization yields the catch fallback item instead); and every
remaining primitive yields a single text item carrying its
stringification.  Objects with a defined `value` field are instead
unwrapped to that field (verbatim for strings, serialized otherwise). -/
theorem normalizeResult_plain_object_serialized :
    (∀ (dev : Bool) (fs : List (String × JsValue)) (s : String),
      isTaggedItem (.obj fs) = false →
      (∀ items, jsGet fs "content" ≠ some (.arr items)) →
      (jsGet fs "value" = none ∨ jsGet fs "value" = some .undef) →
      jsonStr (.obj fs) = some s →
      normalizeResult dev (.obj fs) = textItem s) ∧
    (∀ (dev : Bool) (v : JsValue), isOtherPrim v = true →
      normalizeResult dev v = textItem (jsToString v)) := by
  constructor
  · intro dev fs s htag hcont hval hser
    simp only [normalizeResult, htag, Bool.false_eq_true, if_false]
    rcases hc : jsGet fs "content" with _ | cv
    · rcases hval with hv | hv <;> simp [hv, serToItem, hser]
    · cases cv <;>
        first
        | exact absurd hc (hcont _)
        | (rcases hval with hv | hv <;> simp [hv, serToItem, hser])
  · intro dev v hprim
    cases v <;> simp [isOtherPrim] at hprim <;> rfl

/-- Witness for the amended C5 at the concrete object `{a: 1}` and the
primitive `true`. -/
theorem normalizeResult_plain_object_serialized_witness :
    normalizeResult false (.obj [("a", .num 1)]) = textItem "\x7b\"a\":1\x7d" ∧
    normalizeResult false (.bool true) = textItem (jsToString (.bool true)) :=
  ⟨normalizeResult_plain_object_serialized.1 false [("a", .num 1)] "\x7b\"a\":1\x7d"
      rfl (fun items h => by simp [jsGet] at h) (Or.inl rfl) rfl,
    normalizeResult_plain_object_serialized.2 false (.bool true) rfl⟩

/-- A concrete client identity used in instantiations. -/
def clientInfoCex : JsValue := .obj [("name", .str "X"), ("version", .str "1")]

/-- A configuration with nothing set. -/
def configCex : Config := ⟨none, none, none⟩

/-- A handshake request that includes a client identity, omits
`capabilities`, and carries an empty-string `protocolVersion`. -/
def paramsCex : Params :=
  { clientInfo := some clientInfoCex,
    protocolVersion := some (.str ""),
    capabilities := none,
    extra := [] }

/-- C1 counterexample: a request in the claim's scope (it includes a
client identity and omits `capabilities`) whose provided
empty-string `protocolVersion` is not preserved — the negotiator's falsy
check replaces it with the default, so a default is substituted for a
field that was not missing. -/
theorem fixParams_overwrites_provided_empty_version :
    paramsCex.clientInfo = some clientInfoCex ∧
    paramsCex.capabilities = none ∧
    paramsCex.protocolVersion = some (.str "") ∧
    (fixParams configCex paramsCex).protocolVersion = some (.str "1.0") ∧
    (fixParams configCex paramsCex).protocolVersion ≠ paramsCex.protocolVersion := by
  refine ⟨rfl, rfl, rfl, rfl, ?_⟩
  intro h
  rw [show (fixParams configCex paramsCex).protocolVersion = some (.str "1.0") from rfl] at h
  rw [show paramsCex.protocolVersion = some (.str "") from rfl] at h
  simp at h

/-- C1 (amended): for every handshake request that includes a client
identity, the request the negotiator actually hands to the underlying
handler carries a truthy (hence non-null) protocol version and capability
set; the client identity and all unnamed fields are preserved unchanged;
a truthy provided `protocolVersion`/`capabilities` is preserved and the
defaults are substituted exactly for the absent-or-falsy ones; and
negotiation succeeds provided the underlying handler fails on the
repaired request only with missing-required-field (`Required`) errors —
whatever it does on the fallback rungs. -/
theorem handleInitialize_repairs_and_succeeds
    (original : Params → Except JsError JsValue) (cfg : Config) (p : Params)
    (ci : JsValue) (hci : p.clientInfo = some ci)
    (hreq : ∀ e, original (fixParams cfg p) = .error e →
      requiredGuard e.message = true) :
    (handleInitialize original cfg p).1.isOk = true ∧
    jsTruthyO (fixParams cfg p).protocolVersion = true ∧
    jsTruthyO (fixParams cfg p).capabilities = true ∧
    (fixParams cfg p).clientInfo = some ci ∧
    (fixParams cfg p).extra = p.extra ∧
    (jsTruthyO p.protocolVersion = true →
      (fixParams cfg p).protocolVersion = p.protocolVersion) ∧
    (jsTruthyO p.capabilities = true →
      (fixParams cfg p).capabilities = p.capabilities) ∧
    (jsTruthyO p.protocolVersion = false →
      (fixParams cfg p).protocolVersion = some defaultProtocolVersion) ∧
    (jsTruthyO p.capabilities = false →
      (fixParams cfg p).capabilities = some (defaultCapabilities cfg)) := by
  refine ⟨?_, ?_, ?_, ?_, ?_, ?_, ?_, ?_, ?_⟩
  · rcases horig : original (fixParams cfg p) with e | r
    · have h := hreq e horig
      simp only [handleInitialize, horig, h, if_true]
      rcases h2 : original (minimalParams p) with e2 | r2 <;> rfl
    · simp only [handleInitialize, horig]
      rfl
  · cases hpv : jsTruthyO p.protocolVersion with
    | true => simp [fixParams, hpv]
    | false => simp only [fixParams, hpv, Bool.false_eq_true, if_false]; rfl
  · cases hcap : jsTruthyO p.capabilities with
    | true => simp [fixParams, hcap]
    | false => simp only [fixParams, hcap, Bool.false_eq_true, if_false]; rfl
  · rw [← hci]; rfl
  · rfl
  · intro h; simp [fixParams, h]
  · intro h; simp [fixParams, h]
  · intro h; simp [fixParams, h]
  · intro h; simp [fixParams, h]

/-- A bare handshake request carrying only a client identity. -/
def paramsBare : Params :=
  { clientInfo := some clientInfoCex,
    protocolVersion := none,
    capabilities := none,
    extra := [] }

/-- A handler that accepts any request. -/
def acceptingHandler : Params → Except JsError JsValue :=
  fun _ => .ok (.obj [])

/-- Witness for the amended C1: a request with only a client identity, under
a handler that accepts the repaired request. -/
theorem handleInitialize_repairs_and_succeeds_witness :
    (handleInitialize acceptingHandler configCex paramsBare).1.isOk = true ∧
    jsTruthyO (fixParams configCex paramsBare).protocolVersion = true ∧
    jsTruthyO (fixParams configCex paramsBare).capabilities = true ∧
    (fixParams configCex paramsBare).clientInfo = some clientInfoCex ∧
    (fixParams configCex paramsBare).extra = paramsBare.extra ∧
    (jsTruthyO paramsBare.protocolVersion = true →
      (fixParams configCex paramsBare).protocolVersion = paramsBare.protocolVersion) ∧
    (jsTruthyO paramsBare.capabilities = true →
      (fixParams configCex paramsBare).capabilities = paramsBare.capabilities) ∧
    (jsTruthyO paramsBare.protocolVersion = false →
      (fixParams configCex paramsBare).protocolVersion = some defaultProtocolVersion) ∧
    (jsTruthyO paramsBare.capabilities = false →
      (fixParams configCex paramsBare).capabilities = some (defaultCapabilities configCex)) :=
  handleInitialize_repairs_and_succeeds acceptingHandler configCex
    paramsBare clientInfoCex rfl (fun _e h => Except.noConfusion h)

/-- C2: a fallback rung (the minimal request, and after it the
synthesized response) is attempted only when the underlying handler's
error on the repaired request has a message containing "Required"; an
error failing that guard triggers no fallback and is re-raised to the
caller unchanged, after exactly one invocation of the underlying
handler. -/
theorem handleInitialize_fallback_only_on_required
    (original : Params → Except JsError JsValue) (cfg : Config) (p : Params) :
    (∀ e, original (fixParams cfg p) = .error e →
      requiredGuard e.message = false →
      handleInitialize original cfg p = (.error e, [fixParams cfg p])) ∧
    ((handleInitialize original cfg p).2.length ≥ 2 →
      ∃ e, original (fixParams cfg p) = .error e ∧
        requiredGuard e.message = true) := by
  constructor
  · intro e he hg
    simp [handleInitialize, he, hg]
  · intro hlen
    rcases horig : original (fixParams cfg p) with e | r
    · cases hg : requiredGuard e.message with
      | false => simp [handleInitialize, horig, hg] at hlen
      | true => exact ⟨e, rfl, hg⟩
    · simp [handleInitialize, horig] at hlen

/-- Witness for C2 at a handler that always raises a non-"Required"
error. -/
theorem handleInitialize_fallback_only_on_required_witness :
    handleInitialize (fun _ => .error ⟨"boom"⟩) configCex paramsCex =
      (.error ⟨"boom"⟩, [fixParams configCex paramsCex]) :=
  (handleInitialize_fallback_only_on_required (fun _ => .error ⟨"boom"⟩)
    configCex paramsCex).1 ⟨"boom"⟩ rfl (by decide)

/-- C4: the connection-state tracker is edge-triggered — a same-state
`setConnected` call changes nothing (state, `lastConnected` and both
callback lists included) and invokes no callbacks; starting disconnected,
two consecutive `setConnected(true)` calls fire the reconnect callback
list exactly once (all of it on the first call, nothing on the second);
and any call that invokes callbacks is an actual edge transition. -/
theorem setConnected_edge_triggered :
    (∀ (s : ConnState) (b : Bool) (now : Nat),
      s.isConnected = b → setConnected s b now = (s, [])) ∧
    (∀ (s : ConnState) (now now2 : Nat), s.isConnected = false →
      (setConnected s true now).2 = s.reconnectCbs ∧
      setConnected (setConnected s true now).1 true now2 =
        ((setConnected s true now).1, [])) ∧
    (∀ (s : ConnState) (b : Bool) (now : Nat),
      (setConnected s b now).2 ≠ [] → s.isConnected ≠ b) := by
  refine ⟨?_, ?_, ?_⟩
  · intro s b now h
    simp [setConnected, h]
  · intro s now now2 h
    constructor
    · simp [setConnected, h]
    · simp [setConnected, h]
  · intro s b now hne heq
    rw [show setConnected s b now = (s, []) from by simp [setConnected, heq]] at hne
    exact hne rfl

/-- Witness for C4 at a concrete disconnected state. -/
theorem setConnected_edge_triggered_witness :
    ((setConnected ⟨false, 0, [7], [3, 4]⟩ true 5).2 = [3, 4] ∧
      setConnected (setConnected ⟨false, 0, [7], [3, 4]⟩ true 5).1 true 9 =
        ((setConnected ⟨false, 0, [7], [3, 4]⟩ true 5).1, [])) ∧
    setConnected ⟨true, 5, [7], [3, 4]⟩ true 9 = (⟨true, 5, [7], [3, 4]⟩, []) :=
  ⟨setConnected_edge_triggered.2.1 ⟨false, 0, [7], [3, 4]⟩ 5 9 rfl,
    setConnected_edge_triggered.1 ⟨true, 5, [7], [3, 4]⟩ true 9 rfl⟩

/-- A raw context carrying no logger and no progress reporter. -/
def bareContext : RawContext := ⟨none, none⟩

/-- C7 (code bug): with no caller-supplied logger, the substituted
logger's `info` and `debug` levels write to standard output — the stream
that carries protocol messages under the stdio transport — not to
standard error; only `warn` and `error` target standard error.  This
contradicts the claim (and the spec's requirement) that all four levels
write only to the diagnostic stream. -/
theorem normalizeContext_default_logger_streams :
    ((normalizeContext bareContext).log.info "hello").stream = Stream.stdout ∧
    ((normalizeContext bareContext).log.debug "hello").stream = Stream.stdout ∧
    ((normalizeContext bareContext).log.warn "hello").stream = Stream.stderr ∧
    ((normalizeContext bareContext).log.error "hello").stream = Stream.stderr ∧
    Stream.stdout ≠ Stream.stderr :=
  ⟨rfl, rfl, rfl, rfl, by decide⟩

/-- An error whose code and status match no allow-list entry used in the
C8 counterexample. -/
def retryErrCex : RetryError := ⟨"boom", some (.s "EFOO"), none⟩

/-- An operation that fails on every invocation with `retryErrCex`. -/
def failingOp : Nat → Except RetryError Unit := fun _ => .error retryErrCex

/-- C8 counterexample: with the empty (caller-suppliable) allow-list, an
error matching no list entry is still retried — `withRetry` invokes the
operation `maxRetries + 1 = 3` times and sleeps two backoff delays,
refuting "invokes fn exactly once and re-raises immediately" for every
allow-list. -/
theorem withRetry_empty_allowlist_retries :
    keyMatches [] retryErrCex = false ∧
    withRetry failingOp [] 2 (fun d => d * 2) 100 =
      (.error retryErrCex, 3, [100, 200]) ∧
    (3 : Nat) ≠ 1 := by
  refine ⟨rfl, rfl, by decide⟩

/-- C8 (amended): for every operation and every non-empty allow-list, an
error whose code and status both fail to match the list is re-raised
unchanged after exactly one invocation, with no backoff delay slept; the
empty allow-list instead treats every error as retryable. -/
theorem withRetry_nonmatching_error_single_attempt
    (fn : Nat → Except RetryError Unit) (allow : List ErrKey)
    (maxRetries : Nat) (nextDelay : Nat → Nat) (initialDelay : Nat)
    (e : RetryError) (hne : allow ≠ [])
    (hfn : fn 0 = .error e) (hmatch : keyMatches allow e = false) :
    withRetry fn allow maxRetries nextDelay initialDelay = (.error e, 1, []) := by
  have hemp : allow.isEmpty = false := by
    cases allow with
    | nil => exact absurd rfl hne
    | cons a l => rfl
  cases maxRetries with
  | zero => simp [withRetry, retryGo, hfn, hemp, hmatch]
  | succ n => simp [withRetry, retryGo, hfn, hemp, hmatch]

/-- Witness for the amended C8: a non-matching error against the
allow-list `["EAUTH"]` aborts after one invocation. -/
theorem withRetry_nonmatching_error_single_attempt_witness :
    withRetry failingOp [.s "EAUTH"] 3 (fun d => d * 2) 100 =
      (.error retryErrCex, 1, []) :=
  withRetry_nonmatching_error_single_attempt failingOp [.s "EAUTH"] 3
    (fun d => d * 2) 100 retryErrCex (by simp) rfl (by decide)

/-- C6 counterexample: a non-passthrough object schema with one declared
property accepts (with the unknown key stripped, not rejected) a
candidate carrying the undeclared field `b`. -/
theorem convertToZodSchema_accepts_unknown_field_cex :
    zodParse (convertToZodSchema (.objS [("a", .strS)] [] false))
        (.obj [("a", .str "x"), ("b", .num 1)]) =
      some (.obj [("a", .str "x")]) ∧
    (some (.obj [("a", .str "x")]) : Option JsValue) ≠ none := by
  refine ⟨rfl, ?_⟩
  intro h
  exact Option.noConfusion h

/-- Looking a key up past an appended binding for a different key changes
nothing. -/
theorem jsGet_append_single_ne (fields : List (String × JsValue))
    (k k' : String) (v' : JsValue) (h : k ≠ k') :
    jsGet (fields ++ [(k', v')]) k = jsGet fields k := by
  unfold jsGet
  rw [List.find?_append]
  have h2 : List.find? (fun p => p.1 = k) [(k', v')] = none := by
    simp [List.find?, Ne.symm h]
  rw [h2]
  cases fields.find? (fun p => p.1 = k) <;> rfl

/-- Parsing a shape ignores an appended candidate field whose key is
declared by no shape member. -/
theorem zodParseShape_append_unknown (shape : List (String × ZodType))
    (fields : List (String × JsValue)) (k' : String) (v' : JsValue)
    (h : ∀ q ∈ shape, q.1 ≠ k') :
    zodParseShape shape (fields ++ [(k', v')]) = zodParseShape shape fields := by
  induction shape with
  | nil => rfl
  | cons q rest ih =>
    obtain ⟨k, t⟩ := q
    have hk : k ≠ k' := h (k, t) (List.mem_cons_self _ _)
    have hrest : ∀ q ∈ rest, q.1 ≠ k' := fun q hq => h q (List.mem_cons_of_mem _ hq)
    simp only [zodParseShape, jsGet_append_single_ne fields k k' v' hk, ih hrest]

/-- The conversion preserves the declared key list. -/
theorem convertProps_keys (req : List String) (props : List (String × JSchema)) :
    (convertProps req props).map (fun q => q.1) = props.map (fun q => q.1) := by
  induction props with
  | nil => rfl
  | cons q rest ih =>
    obtain ⟨k, sch⟩ := q
    simp only [convertProps, List.map_cons, ih]

/-- The conversion distributes over appended property lists. -/
theorem convertProps_append (req : List String) (l1 l2 : List (String × JSchema)) :
    convertProps req (l1 ++ l2) = convertProps req l1 ++ convertProps req l2 := by
  induction l1 with
  | nil => rfl
  | cons q rest ih =>
    obtain ⟨k, sch⟩ := q
    simp only [List.cons_append, convertProps, List.append_eq, ih]

/-- Parsing an appended shape parses both halves against the same
candidate and concatenates the outputs. -/
theorem zodParseShape_cons (k : String) (t : ZodType)
    (rest : List (String × ZodType)) (fields : List (String × JsValue)) :
    zodParseShape ((k, t) :: rest) fields =
      match jsGet fields k with
      | none => if isOpt t then zodParseShape rest fields else none
      | some v =>
        match zodParse t v with
        | none => none
        | some v' =>
          match zodParseShape rest fields with
          | none => none
          | some out => some ((k, v') :: out) := rfl

/-- Parsing an appended shape parses both halves against the same
candidate and concatenates the outputs. -/
theorem zodParseShape_append_shape (s1 s2 : List (String × ZodType))
    (fields : List (String × JsValue)) :
    zodParseShape (s1 ++ s2) fields =
      match zodParseShape s1 fields with
      | none => none
      | some a =>
        match zodParseShape s2 fields with
        | none => none
        | some b => some (a ++ b) := by
  induction s1 with
  | nil =>
    simp only [List.nil_append, zodParseShape]
    cases zodParseShape s2 fields <;> rfl
  | cons q rest ih =>
    obtain ⟨k, t⟩ := q
    rw [List.cons_append, zodParseShape_cons, zodParseShape_cons]
    cases hget : jsGet fields k with
    | none =>
      cases hopt : isOpt t with
      | true => exact ih
      | false => rfl
    | some v =>
      dsimp only
      cases hp : zodParse t v with
      | none => rfl
      | some v2 =>
        dsimp only
        rw [ih]
        cases zodParseShape rest fields with
        | none => rfl
        | some a =>
          cases zodParseShape s2 fields with
          | none => rfl
          | some b => simp

/-- C6 (amended): for the adapted validator of an object schema, (i) a
candidate field whose key is not among the declared properties never
causes rejection in the default (non-passthrough) mode — validation of
the candidate with the unknown field appended equals validation without
it, so the unknown field is silently stripped from the accepted output
rather than rejected; (ii) with `additionalProperties: true`
(passthrough) an accepted candidate stays accepted when an unknown field
is appended, and the unknown field is kept in the output; (iii) absence
of a declared field that is not listed as required is accepted —
validation proceeds exactly as if the field were not declared. -/
theorem convertToZodSchema_unknown_and_optional_fields :
    (∀ (props : List (String × JSchema)) (req : List String)
        (fields : List (String × JsValue)) (k' : String) (v' : JsValue),
      (∀ q ∈ props, q.1 ≠ k') →
      zodParse (convertToZodSchema (.objS props req false))
          (.obj (fields ++ [(k', v')])) =
        zodParse (convertToZodSchema (.objS props req false)) (.obj fields)) ∧
    (∀ (props : List (String × JSchema)) (req : List String)
        (fields : List (String × JsValue)) (k' : String) (v' : JsValue)
        (out : List (String × JsValue)),
      (∀ q ∈ props, q.1 ≠ k') →
      zodParse (convertToZodSchema (.objS props req true)) (.obj fields) =
        some (.obj out) →
      zodParse (convertToZodSchema (.objS props req true))
          (.obj (fields ++ [(k', v')])) = some (.obj (out ++ [(k', v')])) ∧
        (k', v') ∈ out ++ [(k', v')]) ∧
    (∀ (pre post : List (String × JSchema)) (req : List String)
        (k : String) (t : JSchema) (fields : List (String × JsValue)),
      req.contains k = false →
      jsGet fields k = none →
      zodParse (convertToZodSchema (.objS (pre ++ (k, t) :: post) req false))
          (.obj fields) =
        zodParse (convertToZodSchema (.objS (pre ++ post) req false))
          (.obj fields)) := by
  refine ⟨?_, ?_, ?_⟩
  · intro props req fields k' v' hk
    have hshape : ∀ q ∈ convertProps req props, q.1 ≠ k' := by
      intro q hq
      have : q.1 ∈ (convertProps req props).map (fun q => q.1) :=
        List.mem_map_of_mem _ hq
      rw [convertProps_keys] at this
      obtain ⟨p, hp, hpk⟩ := List.mem_map.mp this
      rw [← hpk]
      exact hk p hp
    simp only [convertToZodSchema, Bool.false_eq_true, if_false, zodParse,
      zodParseShape_append_unknown _ _ _ _ hshape]
  · intro props req fields k' v' out hk hacc
    have hshape : ∀ q ∈ convertProps req props, q.1 ≠ k' := by
      intro q hq
      have : q.1 ∈ (convertProps req props).map (fun q => q.1) :=
        List.mem_map_of_mem _ hq
      rw [convertProps_keys] at this
      obtain ⟨p, hp, hpk⟩ := List.mem_map.mp this
      rw [← hpk]
      exact hk p hp
    simp only [convertToZodSchema, if_true, zodParse] at hacc ⊢
    rcases hps : zodParseShape (convertProps req props) fields with _ | out0
    · rw [hps] at hacc
      exact absurd hacc (by simp)
    · rw [hps] at hacc
      simp only [Option.some.injEq, JsValue.obj.injEq] at hacc
      rw [zodParseShape_append_unknown _ _ _ _ hshape, hps]
      constructor
      · simp only [Option.some.injEq, JsValue.obj.injEq]
        have hcontains : (List.map (fun q => q.1) (convertProps req props)).contains k' = false := by
          rw [convertProps_keys]
          simp only [List.contains_eq_any_beq, List.any_eq_false]
          intro x hx
          obtain ⟨p, hp, hpk⟩ := List.mem_map.mp hx
          have := hk p hp
          rw [← hpk]
          simp [Ne.symm this]
        rw [List.filter_append, ← List.append_assoc, hacc]
        simp only [List.append_cancel_left_eq]
        simp [List.filter_cons, hcontains]
        intro x hx
        exact hshape (k', x) hx rfl
      · exact List.mem_append_right _ (List.mem_cons_self _ _)
  · intro pre post req k t fields hreq hget
    simp only [convertToZodSchema, Bool.false_eq_true, if_false, zodParse,
      convertProps_append]
    rw [show convertProps req ((k, t) :: post) =
        (k, .optional (convertToZodSchema t)) :: convertProps req post from by
      simp only [convertProps, hreq, Bool.false_eq_true, if_false]]
    rw [zodParseShape_append_shape, zodParseShape_append_shape]
    rw [show zodParseShape ((k, .optional (convertToZodSchema t)) ::
        convertProps req post) fields = zodParseShape (convertProps req post) fields from by
      simp [zodParseShape, hget, isOpt]]

/-- Witness for the amended C6 at a one-property schema: the unknown field
`b` is stripped in default mode, kept in passthrough mode, and the absent
optional field `a` is accepted. -/
theorem convertToZodSchema_unknown_and_optional_fields_witness :
    (zodParse (convertToZodSchema (.objS [("a", .strS)] [] false))
        (.obj ([("a", .str "x")] ++ [("b", .num 1)])) =
      zodParse (convertToZodSchema (.objS [("a", .strS)] [] false))
        (.obj [("a", .str "x")])) ∧
    (zodParse (convertToZodSchema (.objS [("a", .strS)] [] true))
        (.obj ([("a", .str "x")] ++ [("b", .num 1)])) =
      some (.obj ([("a", .str "x")] ++ [("b", .num 1)])) ∧
      ("b", JsValue.num 1) ∈ [("a", JsValue.str "x")] ++ [("b", JsValue.num 1)]) ∧
    (zodParse (convertToZodSchema (.objS ([] ++ ("a", .strS) :: []) [] false))
        (.obj []) =
      zodParse (convertToZodSchema (.objS ([] ++ []) [] false)) (.obj [])) :=
  ⟨convertToZodSchema_unknown_and_optional_fields.1 [("a", .strS)] [] [("a", .str "x")]
      "b" (.num 1) (by decide),
    convertToZodSchema_unknown_and_optional_fields.2.1 [("a", .strS)] [] [("a", .str "x")]
      "b" (.num 1) [("a", .str "x")] (by decide) rfl,
    convertToZodSchema_unknown_and_optional_fields.2.2 [] [] [] "a" .strS []
      (by decide) rfl⟩

/-- Deleting a key removes its binding. -/
theorem mapGet_mapDelete (m : List (String × Nat)) (k : String) :
    mapGet (mapDelete m k) k = none := by
  induction m with
  | nil => rfl
  | cons p rest ih =>
    by_cases hp : p.1 = k
    · simp only [mapDelete, List.filter_cons] at ih ⊢
      rw [if_neg (by simp [hp])]
      exact ih
    · simp [mapDelete, mapGet, List.filter_cons, List.find?, hp]

/-- Replacing in place finds the new binding first. -/
theorem find?_map_replace (m : List (String × Nat)) (k : String) (v : Nat)
    (hex : m.any (fun p => p.1 = k) = true) :
    (m.map (fun p => if p.1 = k then (k, v) else p)).find? (fun p => p.1 = k) =
      some (k, v) := by
  induction m with
  | nil => simp at hex
  | cons p rest ih =>
    by_cases hp : p.1 = k
    · simp [List.find?, hp]
    · have hr : rest.any (fun q => q.1 = k) = true := by
        rcases List.any_eq_true.mp hex with ⟨x, hx, hxk⟩
        rcases List.mem_cons.mp hx with rfl | hx'
        · exact absurd (of_decide_eq_true hxk) hp
        · exact List.any_eq_true.mpr ⟨x, hx', hxk⟩
      simpa [List.find?, hp] using ih hr

/-- Every entry of `mapSet m k v` is the new binding or an old entry. -/
theorem mem_mapSet (m : List (String × Nat)) (k : String) (v : Nat)
    (q : String × Nat) (hq : q ∈ mapSet m k v) : q = (k, v) ∨ q ∈ m := by
  unfold mapSet at hq
  split at hq
  · obtain ⟨p, hp, hpq⟩ := List.mem_map.mp hq
    by_cases hpk : p.1 = k
    · simp only [hpk, if_true] at hpq
      exact Or.inl hpq.symm
    · simp only [hpk, if_false] at hpq
      exact Or.inr (hpq ▸ hp)
  · rcases List.mem_append.mp hq with h | h
    · exact Or.inr h
    · exact Or.inl (List.mem_singleton.mp h)

/-- Setting a key makes it retrievable with the new value. -/
theorem mapGet_mapSet_self (m : List (String × Nat)) (k : String) (v : Nat) :
    mapGet (mapSet m k v) k = some v := by
  unfold mapSet mapGet
  by_cases hex : m.any (fun p => p.1 = k)
  · rw [if_pos hex, find?_map_replace m k v hex]
    rfl
  · rw [if_neg hex]
    have hnone : m.find? (fun p => p.1 = k) = none := by
      rw [List.find?_eq_none]
      intro x hx hxk
      exact hex (List.any_eq_true.mpr ⟨x, hx, hxk⟩)
    rw [List.find?_append, hnone]
    simp [List.find?]

/-- The well-formedness invariant of the modelled runtime: every registry
key is the captured id of some pending timer, native handles are
pairwise distinct, and all live handles (and registry-referenced
handles) are below the generator. -/
def TMInv (s : TMState) : Prop :=
  (∀ q ∈ s.registry, ∃ p ∈ s.pending, p.2 = q.1) ∧
  (s.pending.map (fun p => p.1)).Nodup ∧
  (∀ p ∈ s.pending, p.1 < s.nextHandle)

/-- The empty manager satisfies the invariant. -/
theorem tmInv_empty : TMInv tmEmpty := by
  refine ⟨?_, ?_, ?_⟩ <;> simp [tmEmpty]

/-- Scheduling preserves the invariant. -/
theorem tmInv_setTimeout (s : TMState) (id : String) (h : TMInv s) :
    TMInv (tmSetTimeout s id) := by
  obtain ⟨hcov, hnd, hbound⟩ := h
  refine ⟨?_, ?_, ?_⟩
  · intro q hq
    rcases mem_mapSet _ _ _ _ hq with rfl | hq'
    · exact ⟨(s.nextHandle, id), List.mem_append_right _ (List.mem_singleton.mpr rfl), rfl⟩
    · obtain ⟨p, hp, hpq⟩ := hcov q hq'
      exact ⟨p, List.mem_append_left _ hp, hpq⟩
  · simp only [tmSetTimeout, List.map_append, List.map_cons, List.map_nil]
    rw [List.nodup_append]
    refine ⟨hnd, List.nodup_singleton _, ?_⟩
    intro x hx
    obtain ⟨p, hp, rfl⟩ := List.mem_map.mp hx
    simp only [List.mem_singleton]
    exact Nat.ne_of_lt (hbound p hp)
  · intro p hp
    rcases List.mem_append.mp hp with hp' | hp'
    · exact Nat.lt_succ_of_lt (hbound p hp')
    · rw [List.mem_singleton.mp hp']
      exact Nat.lt_succ_self _

/-- Scheduling a list of timers preserves the invariant. -/
theorem tmInv_scheduleAll (ids : List String) (s : TMState) (h : TMInv s) :
    TMInv (tmScheduleAll s ids) := by
  induction ids generalizing s with
  | nil => exact h
  | cons id rest ih => exact ih (tmSetTimeout s id) (tmInv_setTimeout s id h)

/-- Firing, in order, every timer of a pending snapshot that covers all
registry keys empties the registry (each one-shot deletes its captured
id, whatever its callback does). -/
theorem tmFireAll_registry_empty (l : List (Nat × String)) (s : TMState)
    (hpend : s.pending = l)
    (hnd : (s.pending.map (fun p => p.1)).Nodup)
    (hcov : ∀ q ∈ s.registry, ∃ p ∈ l, p.2 = q.1) :
    (tmFireAll s l).registry = [] := by
  induction l generalizing s with
  | nil =>
    rw [List.eq_nil_iff_forall_not_mem]
    intro q hq
    obtain ⟨p, hp, _⟩ := hcov q hq
    simp at hp
  | cons hd rest ih =>
    obtain ⟨h, tid⟩ := hd
    rw [hpend] at hnd
    have hnd2 : (h :: rest.map (fun p => p.1)).Nodup := by
      simpa only [List.map_cons] using hnd
    have hhead : h ∉ rest.map (fun p => p.1) := (List.nodup_cons.mp hnd2).1
    have hrestnd : (rest.map (fun p => p.1)).Nodup := (List.nodup_cons.mp hnd2).2
    have hrestne : ∀ p ∈ rest, ¬ p.1 = h := by
      intro p hp hcon
      exact hhead (hcon ▸ List.mem_map_of_mem (fun p => p.1) hp)
    have hfind : s.pending.find? (fun p => p.1 = h) = some (h, tid) := by
      rw [hpend]
      simp [List.find?]
    show (tmFireAll (tmFire s h false) rest).registry = []
    apply ih
    · simp only [tmFire, hfind]
      rw [hpend, List.filter_cons, if_neg (by simp)]
      exact List.filter_eq_self.mpr (fun p hp => by simpa using hrestne p hp)
    · simp only [tmFire, hfind]
      rw [hpend, List.filter_cons, if_neg (by simp)]
      rw [List.filter_eq_self.mpr (fun p hp => by simpa using hrestne p hp)]
      exact hrestnd
    · intro q hq
      simp only [tmFire, hfind, mapDelete] at hq
      have hq' := List.mem_filter.mp hq
      obtain ⟨p, hp, hpq⟩ := hcov q hq'.1
      rcases List.mem_cons.mp hp with rfl | hp'
      · exfalso
        have : ¬ q.1 = tid := by simpa using hq'.2
        exact this hpq.symm
      · exact ⟨p, hp', hpq⟩

/-- C9: a one-shot timer's firing removes its registry entry whether the
callback returned or threw (the outcome flag does not influence the
resulting state), and scheduling any list of one-shot timers on a fresh
manager and letting every pending timer fire leaves the registry with
zero entries. -/
theorem tmFire_cleanup_and_drain :
    (∀ (s : TMState) (h : Nat) (pr : Nat × String) (b : Bool),
      s.pending.find? (fun p => p.1 = h) = some pr →
      tmFire s h b = tmFire s h false ∧
      mapGet (tmFire s h b).registry pr.2 = none) ∧
    (∀ ids : List String,
      (tmFireAll (tmScheduleAll tmEmpty ids)
        (tmScheduleAll tmEmpty ids).pending).registry = []) := by
  constructor
  · intro s h pr b hfind
    refine ⟨rfl, ?_⟩
    obtain ⟨h1, tid⟩ := pr
    simp [tmFire, hfind, mapGet_mapDelete]
  · intro ids
    have hinv := tmInv_scheduleAll ids tmEmpty tmInv_empty
    exact tmFireAll_registry_empty _ _ rfl hinv.2.1 (fun q hq => hinv.1 q hq)

/-- Witness for C9: a concrete one-shot timer whose callback throws, and
a batch of three scheduled timers all firing. -/
theorem tmFire_cleanup_and_drain_witness :
    (tmFire ⟨[("a", 0)], [(0, "a")], 1⟩ 0 true =
        tmFire ⟨[("a", 0)], [(0, "a")], 1⟩ 0 false ∧
      mapGet (tmFire ⟨[("a", 0)], [(0, "a")], 1⟩ 0 true).registry "a" = none) ∧
    (tmFireAll (tmScheduleAll tmEmpty ["t1", "t2", "t3"])
      (tmScheduleAll tmEmpty ["t1", "t2", "t3"]).pending).registry = [] :=
  ⟨tmFire_cleanup_and_drain.1 ⟨[("a", 0)], [(0, "a")], 1⟩ 0 (0, "a") true rfl,
    tmFire_cleanup_and_drain.2 ["t1", "t2", "t3"]⟩

/-- C10: re-using an id already present in the registry replaces the map
entry with the new timer's handle without cancelling the earlier native
timer — the earlier timer stays pending (its callback will still fire) —
and when the earlier one-shot fires, its cleanup deletes the registry
entry that now refers to the newer timer: the newer timer is still
pending (live) but `clear(id)` is a no-op and `clearAll` does not cancel
it. -/
theorem tmSetTimeout_duplicate_id (s : TMState) (id : String) (h0 : Nat)
    (b : Bool)
    (hfind : s.pending.find? (fun p => p.1 = h0) = some (h0, id))
    (hreg : ∀ q ∈ s.registry, q.2 < s.nextHandle)
    (hpend : ∀ p ∈ s.pending, p.1 < s.nextHandle) :
    mapGet (tmSetTimeout s id).registry id = some s.nextHandle ∧
    (h0, id) ∈ (tmSetTimeout s id).pending ∧
    (s.nextHandle, id) ∈ (tmSetTimeout s id).pending ∧
    mapGet (tmFire (tmSetTimeout s id) h0 b).registry id = none ∧
    (s.nextHandle, id) ∈ (tmFire (tmSetTimeout s id) h0 b).pending ∧
    tmClear (tmFire (tmSetTimeout s id) h0 b) id =
      tmFire (tmSetTimeout s id) h0 b ∧
    (s.nextHandle, id) ∈ (tmClearAll (tmFire (tmSetTimeout s id) h0 b)).pending := by
  have hmem : (h0, id) ∈ s.pending := List.mem_of_find?_eq_some hfind
  have hlt : h0 < s.nextHandle := hpend (h0, id) hmem
  have hfind2 : (s.pending ++ [(s.nextHandle, id)]).find? (fun p => p.1 = h0) =
      some (h0, id) := by
    rw [List.find?_append, hfind]
    rfl
  have hfire : tmFire (tmSetTimeout s id) h0 b =
      { registry := mapDelete (mapSet s.registry id s.nextHandle) id,
        pending := (s.pending ++ [(s.nextHandle, id)]).filter (fun p => p.1 ≠ h0),
        nextHandle := s.nextHandle + 1 } := by
    simp only [tmFire, tmSetTimeout, hfind2]
  have hnewmem : (s.nextHandle, id) ∈
      (s.pending ++ [(s.nextHandle, id)]).filter (fun p => p.1 ≠ h0) := by
    rw [List.mem_filter]
    refine ⟨List.mem_append_right _ (List.mem_singleton.mpr rfl), ?_⟩
    simp
    omega
  have hregv : ∀ q ∈ mapDelete (mapSet s.registry id s.nextHandle) id,
      q.2 ≠ s.nextHandle := by
    intro q hq
    have hq' := List.mem_filter.mp hq
    rcases mem_mapSet _ _ _ _ hq'.1 with heq | hq''
    · exfalso
      have hne : ¬ q.1 = id := by simpa using hq'.2
      rw [heq] at hne
      exact hne rfl
    · exact Nat.ne_of_lt (hreg q hq'')
  refine ⟨?_, ?_, ?_, ?_, ?_, ?_, ?_⟩
  · exact mapGet_mapSet_self s.registry id s.nextHandle
  · exact List.mem_append_left _ hmem
  · exact List.mem_append_right _ (List.mem_singleton.mpr rfl)
  · rw [hfire]
    exact mapGet_mapDelete _ id
  · rw [hfire]
    exact hnewmem
  · rw [hfire]
    simp only [tmClear]
    rw [show mapGet (mapDelete (mapSet s.registry id s.nextHandle) id) id = none from
      mapGet_mapDelete _ id]
  · rw [hfire]
    simp only [tmClearAll]
    rw [List.mem_filter]
    refine ⟨hnewmem, ?_⟩
    have hany : ((mapDelete (mapSet s.registry id s.nextHandle) id).any
        (fun q => q.2 = s.nextHandle)) = false := by
      rw [List.any_eq_false]
      intro q hq
      simpa using hregv q hq
    simp [hany]

/-- Witness for C10: schedule id "a" on a fresh manager, schedule "a"
again, then let the first timer fire. -/
theorem tmSetTimeout_duplicate_id_witness :
    mapGet (tmSetTimeout (tmSetTimeout tmEmpty "a") "a").registry "a" =
      some (tmSetTimeout tmEmpty "a").nextHandle ∧
    (0, "a") ∈ (tmSetTimeout (tmSetTimeout tmEmpty "a") "a").pending ∧
    ((tmSetTimeout tmEmpty "a").nextHandle, "a") ∈
      (tmSetTimeout (tmSetTimeout tmEmpty "a") "a").pending ∧
    mapGet (tmFire (tmSetTimeout (tmSetTimeout tmEmpty "a") "a") 0 true).registry
        "a" = none ∧
    ((tmSetTimeout tmEmpty "a").nextHandle, "a") ∈
      (tmFire (tmSetTimeout (tmSetTimeout tmEmpty "a") "a") 0 true).pending ∧
    tmClear (tmFire (tmSetTimeout (tmSetTimeout tmEmpty "a") "a") 0 true) "a" =
      tmFire (tmSetTimeout (tmSetTimeout tmEmpty "a") "a") 0 true ∧
    ((tmSetTimeout tmEmpty "a").nextHandle, "a") ∈
      (tmClearAll (tmFire (tmSetTimeout (tmSetTimeout tmEmpty "a") "a") 0 true)).pending :=
  tmSetTimeout_duplicate_id (tmSetTimeout tmEmpty "a") "a" 0 true rfl
    (by decide) (by decide)

end HaloPSA
